import Mathlib

/-!
# A verification development for `bynow2code/ping` (`main.go`)

Shallow embedding of the ICMP echo client:

* `calculateICMPChecksum` (main.go 103-124), the Internet checksum over a byte slice;
* the `ICMP` struct (main.go 15-22) and its big-endian serialisation by `binary.Write`;
* the body of the session loop (main.go 48-86) as a function of the loop counter and
  of what the connection does in that iteration.

Conventions.  A Go `byte`/`uint8` is a `Fin 256`, a `uint16` a `Fin 65536`; wider
machine integers are `Nat`/`Int` with explicit reductions modulo `2 ^ w`.  A Go run
time panic is the result `none`.
-/

namespace Ping

/-! ## Machine integers -/

/-- Go `byte` (`uint8`). -/
abbrev Byte := Fin 256

/-- Go `uint16`. -/
abbrev Uint16 := Fin 65536

/-- The conversion `byte(n)` of a non-negative integer: the low 8 bits. -/
def toByte (n : Nat) : Byte := ⟨n % 256, Nat.mod_lt _ (by decide)⟩

/-- The conversion `uint16(n)` of a non-negative integer: the low 16 bits. -/
def toUint16 (n : Nat) : Uint16 := ⟨n % 65536, Nat.mod_lt _ (by decide)⟩

/-- The function `binary.BigEndian.Uint16(b)` on a byte slice:
`uint16(b[1]) | uint16(b[0])<<8`.  A slice shorter than two bytes panics. -/
def bigEndianUint16 : List Byte → Option Uint16
  | b0 :: b1 :: _ => some (toUint16 (b1.val ||| (b0.val <<< 8)))
  | _ => none

/-- The slice expression `buf[lo:hi]`.  Go panics when `hi` exceeds the capacity or
`lo > hi`; the model is stricter and already fails when `hi` exceeds the length. -/
def slice (buf : List Byte) (lo hi : Nat) : Option (List Byte) :=
  if lo ≤ hi ∧ hi ≤ buf.length then some ((buf.drop lo).take (hi - lo)) else none

/-- The assignment `buf[i] = b`; it panics when `i` is out of range. -/
def setByte (buf : List Byte) (i : Nat) (b : Byte) : Option (List Byte) :=
  if i < buf.length then some (buf.set i b) else none

/-! ## `calculateICMPChecksum` (main.go 103-124) -/

/-- The word loop, main.go 111-114:
`for i := 0; i < len(buf); i += 2 { sum += uint32(binary.BigEndian.Uint16(buf[i:i+2])) }`,
started at index `i` with accumulator `sum` (a `uint32`, so the addition wraps). -/
def wordLoop (buf : List Byte) (i sum : Nat) : Option Nat :=
  if i < buf.length then
    match (slice buf i (i + 2)).bind bigEndianUint16 with
    | none => none
    | some word => wordLoop buf (i + 2) ((sum + word.val) % 2 ^ 32)
  else some sum
termination_by buf.length - i
decreasing_by omega

/-- The carry loop, main.go 117-119:
`for sum>>16 > 0 { sum = (sum & 0xFFFF) + (sum >> 16) }` on a `uint32`. -/
def foldCarry (sum : Nat) : Nat :=
  if h : sum >>> 16 > 0 then foldCarry (((sum &&& 0xFFFF) + (sum >>> 16)) % 2 ^ 32) else sum
termination_by sum
decreasing_by
  have h1 : sum >>> 16 = sum / 65536 := by rw [Nat.shiftRight_eq_div_pow]
  have h2 : sum &&& 0xFFFF = sum % 65536 := Nat.and_pow_two_sub_one_eq_mod sum 16
  rw [h1] at h
  rw [h1, h2]
  have h3 := Nat.mod_le (sum % 65536 + sum / 65536) (2 ^ 32)
  omega

/-- The function `calculateICMPChecksum`, main.go 103-124.  The sum starts at `0`; an
odd-length buffer gets one zero byte appended; `uint16(sum)` keeps the low 16 bits and
the complement `^x` of a `uint16` is `x` xor `0xFFFF`. -/
def calculateICMPChecksum (buf : List Byte) : Option Nat :=
  let buf := if buf.length % 2 ≠ 0 then buf ++ [0] else buf
  match wordLoop buf 0 0 with
  | none => none
  | some sum => some ((foldCarry sum % 65536) ^^^ 0xFFFF)

/-! ## The `ICMP` message (main.go 15-22) and its serialisation -/

/-- The struct `ICMP`, main.go 15-22.  The field `Type` is spelled `Typ`. -/
structure ICMP where
  Typ : Byte
  Code : Byte
  Checksum : Uint16
  Identifier : Uint16
  SequenceNumber : Uint16
  Data : { l : List Byte // l.length = 48 }
  deriving DecidableEq

/-- The zero value of `[48]byte`. -/
def zeroData : { l : List Byte // l.length = 48 } := ⟨List.replicate 48 0, by simp⟩

/-- Big-endian encoding of a `uint16` by `binary.Write`: `byte(v >> 8)`, `byte(v)`. -/
def putUint16 (v : Uint16) : List Byte := [toByte (v.val >>> 8), toByte v.val]

/-- The call `binary.Write(&buffer, binary.BigEndian, icmp)` followed by
`buffer.Bytes()`: the fields in declaration order, integers big-endian.  For a struct
of fixed-size fields the call returns no error. -/
def binaryWrite (icmp : ICMP) : List Byte :=
  [icmp.Typ, icmp.Code] ++ putUint16 icmp.Checksum ++ putUint16 icmp.Identifier
    ++ putUint16 icmp.SequenceNumber ++ icmp.Data.val

/-! ## The session loop (main.go 48-86) -/

/-- The conversion `uint16(i)` of a signed `int`: the low 16 bits of its two's
complement representation. -/
def uint16OfInt (i : Int) : Uint16 := toUint16 (i % 65536).toNat

/-- A 64-bit signed `int` after an arithmetic operation: wrapped into
`[-2^63, 2^63)`. -/
def wrapInt (x : Int) : Int := (x + 2 ^ 63) % 2 ^ 64 - 2 ^ 63

/-- The identifier of main.go 52:
`binary.BigEndian.Uint16([]byte{byte(pid >> 8), byte(pid & 0xfff)})`. -/
def identifier (pid : Nat) : Option Uint16 :=
  bigEndianUint16 [toByte (pid >>> 8), toByte (pid &&& 0xfff)]

/-- The struct built by main.go 49-52 at loop counter `i` in process `pid`. -/
def buildICMP (pid : Nat) (i : Int) : Option ICMP :=
  let icmp : ICMP :=
    { Typ := 8, Code := 0, Checksum := 0, Identifier := 0,
      SequenceNumber := uint16OfInt i, Data := zeroData }
  match identifier pid with
  | none => none
  | some id => some { icmp with Identifier := id }

/-- The request of main.go 54-63: the serialised struct with the checksum stored at
offsets 2 and 3. -/
def buildRequest (icmp : ICMP) : Option (List Byte) :=
  let request := binaryWrite icmp
  match calculateICMPChecksum request with
  | none => none
  | some checkSum =>
    match setByte request 2 (toByte (checkSum >>> 8)) with
    | none => none
    | some request => setByte request 3 (toByte checkSum)

/-- What `conn.Read(response)` does: it fails, or it delivers a datagram. -/
inductive ReadResult
  | error
  | ok (data : List Byte)
  deriving DecidableEq

/-- What the connection does during one iteration. -/
structure IterEnv where
  setDeadlineOk : Bool
  writeOk : Bool
  read : ReadResult
  deriving DecidableEq

/-- The observable actions of the loop.  The remote address and the elapsed time of
a reply line are not part of the model. -/
inductive Event
  | setDeadline
  | write (request : List Byte)
  | fatal
  | print (line : String)
  | replyLine (bytes : Int) (icmpSeq : Nat) (ttl : Nat)
  | sleep
  deriving DecidableEq

/-- The text of `fmt.Printf("Request timeout for icmp_seq %d\n", icmp.SequenceNumber)`. -/
def timeoutLine (seq : Uint16) : String :=
  "Request timeout for icmp_seq " ++ toString seq.val ++ "\n"

/-- The receive buffer after `response := make([]byte, 1024)` and a read that
delivered `data`: the first 1024 bytes of the datagram, then zeros. -/
def responseBuffer (data : List Byte) : List Byte :=
  data.take 1024 ++ List.replicate (1024 - data.length) 0

/-- The number of bytes `conn.Read` reports for a datagram `data`. -/
def readCount (data : List Byte) : Nat := min data.length 1024

/-- The result of one pass through the loop body: what it did, and whether the loop
goes on (`false` after `log.Fatalln`). -/
structure IterResult where
  events : List Event
  continues : Bool
  deriving DecidableEq

/-- The loop body, main.go 49-85, at loop counter `i`. -/
def iteration (pid : Nat) (i : Int) (env : IterEnv) : Option IterResult :=
  match buildICMP pid i with
  | none => none
  | some icmp =>
    match buildRequest icmp with
    | none => none
    | some request =>
      if env.setDeadlineOk = false then some ⟨[.setDeadline, .fatal], false⟩
      else if env.writeOk = false then some ⟨[.setDeadline, .write request, .fatal], false⟩
      else
        match env.read with
        | .error =>
          some ⟨[.setDeadline, .write request, .print (timeoutLine icmp.SequenceNumber)], true⟩
        | .ok data =>
          match (responseBuffer data)[8]? with
          | none => none
          | some ttl =>
            some ⟨[.setDeadline, .write request,
                   .replyLine ((readCount data : Int) - 20) icmp.SequenceNumber.val ttl.val,
                   .sleep], true⟩

/-- How far the session has got. -/
inductive Status
  | running
  | exited
  | panicked
  deriving DecidableEq

/-- The state of the session between iterations. -/
structure Session where
  i : Int
  log : List Event
  status : Status
  deriving DecidableEq

/-- The state at `for i := 0; ...`. -/
def Session.start : Session := ⟨0, [], .running⟩

/-- One iteration of `for i := 0; ; i++ { ... }` from state `s`. -/
def Session.step (pid : Nat) (s : Session) (env : IterEnv) : Session :=
  match s.status with
  | .running =>
    match iteration pid s.i env with
    | none => { s with status := .panicked }
    | some r =>
      if r.continues then ⟨wrapInt (s.i + 1), s.log ++ r.events, .running⟩
      else ⟨s.i, s.log ++ r.events, .exited⟩
  | _ => s

/-- The session after the iterations whose connection behaviour is listed in `hist`. -/
def Session.run (pid : Nat) (hist : List IterEnv) : Session :=
  hist.foldl (Session.step pid) Session.start

/-! ## Auxiliary definitions used by the statements and proofs -/

/-- The sum of the big-endian 16-bit words of a buffer as a natural number, without
wrap-around; a trailing single byte counts as the high byte of a last word. -/
def wordSum : List Byte → Nat
  | b0 :: b1 :: rest => b0.val * 256 + b1.val + wordSum rest
  | [b0] => b0.val * 256
  | [] => 0

/-- The message of an iteration as a function of its identifier and sequence number:
type 8, code 0, checksum 0, 48 zero bytes of data. -/
def echoRequest (id seq : Uint16) : ICMP :=
  { Typ := 8, Code := 0, Checksum := 0, Identifier := id, SequenceNumber := seq,
    Data := zeroData }

/-- The bytes of a request with checksum `c`, identifier `id` and sequence number
`seq`. -/
def requestBytes (c : Nat) (id seq : Uint16) : List Byte :=
  8 :: 0 :: toByte (c >>> 8) :: toByte c :: toByte (id.val >>> 8) :: toByte id.val
    :: toByte (seq.val >>> 8) :: toByte seq.val :: List.replicate 48 0

/-- The requests passed to `conn.Write`, in order, among a list of actions. -/
def writtenRequests : List Event → List (List Byte)
  | [] => []
  | .write request :: rest => request :: writtenRequests rest
  | _ :: rest => writtenRequests rest

/-- The sequence-number field of a request as it is on the wire: the big-endian
`uint16` at offsets 6 and 7; `none` when the request is too short to have one. -/
def sequenceField (request : List Byte) : Option Nat :=
  (bigEndianUint16 (request.drop 6)).map Fin.val

/-! ## Lemmas on the checksum -/

theorem bigEndianUint16_pair (b0 b1 : Byte) (rest : List Byte) :
    bigEndianUint16 (b0 :: b1 :: rest) = some (toUint16 (b0.val * 256 + b1.val)) := by
  have h : b1.val ||| (b0.val <<< 8) = b0.val * 256 + b1.val := by
    rw [Nat.shiftLeft_eq, Nat.or_comm, Nat.mul_comm]
    exact (Nat.mul_add_lt_is_or (by exact b1.isLt) b0.val).symm
  simp only [bigEndianUint16, h]

theorem toUint16_pair_val (b0 b1 : Byte) :
    (toUint16 (b0.val * 256 + b1.val)).val = b0.val * 256 + b1.val := by
  have h0 := b0.isLt
  have h1 := b1.isLt
  simp only [toUint16]
  omega

theorem wordLoop_done (buf : List Byte) (i sum : Nat) (h : buf.length ≤ i) :
    wordLoop buf i sum = some sum := by
  rw [wordLoop]
  simp only [Nat.not_lt.mpr h, if_false]

theorem wordLoop_step (buf : List Byte) (i sum : Nat) (b0 b1 : Byte) (rest : List Byte)
    (h : buf.drop i = b0 :: b1 :: rest) :
    wordLoop buf i sum
      = wordLoop buf (i + 2) ((sum + (b0.val * 256 + b1.val)) % 2 ^ 32) := by
  have hlen : i + 2 ≤ buf.length := by
    have h1 := congrArg List.length h
    simp only [List.length_drop, List.length_cons] at h1
    omega
  have hs : slice buf i (i + 2) = some [b0, b1] := by
    simp only [slice, h, Nat.le_add_right, hlen, and_self, if_true, Nat.add_sub_cancel_left,
      List.take_succ_cons, List.take_zero]
  rw [wordLoop]
  have hi : i < buf.length := by omega
  simp only [hi, if_true, hs, Option.some_bind, bigEndianUint16_pair, toUint16_pair_val]

theorem wordLoop_eq (n : Nat) : ∀ (buf : List Byte) (i sum : Nat),
    i + 2 * n = buf.length → sum < 2 ^ 32 →
    wordLoop buf i sum = some ((sum + wordSum (buf.drop i)) % 2 ^ 32) := by
  induction n with
  | zero =>
    intro buf i sum hlen hsum
    have hd : buf.drop i = [] := List.drop_eq_nil_of_le (by omega)
    rw [wordLoop_done buf i sum (by omega), hd]
    simp only [wordSum, Nat.add_zero]
    rw [Nat.mod_eq_of_lt hsum]
  | succ n ih =>
    intro buf i sum hlen hsum
    have h0 : i < buf.length := by omega
    have h1 : i + 1 < buf.length := by omega
    have hd : buf.drop i = buf[i] :: buf[i + 1] :: buf.drop (i + 2) := by
      rw [List.drop_eq_getElem_cons h0, List.drop_eq_getElem_cons h1]
    rw [wordLoop_step buf i sum _ _ _ hd,
      ih buf (i + 2) _ (by omega) (Nat.mod_lt _ (by decide)), hd]
    simp only [wordSum]
    congr 1
    omega

theorem wordSum_pad : ∀ (buf : List Byte), buf.length % 2 = 1 →
    wordSum (buf ++ [0]) = wordSum buf
  | [], h => by simp at h
  | [b0], _ => by simp [wordSum]
  | b0 :: b1 :: rest, h => by
    have h1 : rest.length % 2 = 1 := by
      simp only [List.length_cons] at h
      omega
    have ih := wordSum_pad rest h1
    rw [List.cons_append, List.cons_append]
    simp only [wordSum, ih]

theorem foldCarry_small (s : Nat) (h : s < 65536) : foldCarry s = s := by
  rw [foldCarry]
  have h1 : s >>> 16 = 0 := by
    rw [Nat.shiftRight_eq_div_pow]
    exact Nat.div_eq_of_lt h
  simp only [h1, gt_iff_lt, Nat.lt_irrefl, dite_false]

theorem foldCarry_large (s : Nat) (h : 65536 ≤ s) :
    foldCarry s = foldCarry ((s % 65536 + s / 65536) % 2 ^ 32) := by
  rw [foldCarry]
  have h1 : s >>> 16 = s / 65536 := by rw [Nat.shiftRight_eq_div_pow]
  have h2 : s &&& 0xFFFF = s % 65536 := Nat.and_pow_two_sub_one_eq_mod s 16
  have h3 : 0 < s / 65536 := Nat.div_pos h (by decide)
  simp only [h1, h2, gt_iff_lt, h3, dite_true]

/-- The carry loop reduces a 32-bit sum to 16 bits, keeps its residue modulo `0xFFFF`
and yields zero only for the sum zero. -/
theorem foldCarry_spec (s : Nat) (hs : s < 2 ^ 32) :
    foldCarry s < 65536 ∧ foldCarry s % 65535 = s % 65535 ∧ foldCarry s ≤ s
      ∧ (0 < s → 0 < foldCarry s) := by
  induction s using Nat.strong_induction_on with
  | _ s ih =>
    by_cases h : s < 65536
    · rw [foldCarry_small s h]
      exact ⟨h, rfl, Nat.le_refl _, fun h => h⟩
    · have h' : 65536 ≤ s := Nat.le_of_not_lt h
      have hmod : (s % 65536 + s / 65536) % 2 ^ 32 = s % 65536 + s / 65536 := by
        apply Nat.mod_eq_of_lt
        omega
      rw [foldCarry_large s h', hmod]
      have hlt : s % 65536 + s / 65536 < s := by omega
      obtain ⟨a, b, c, d⟩ := ih _ hlt (by omega)
      refine ⟨a, ?_, by omega, fun _ => d (by omega)⟩
      rw [b]
      omega

/-- The complement of a 16-bit value. -/
theorem complement16 (x : Nat) (h : x < 65536) : x ^^^ 0xFFFF = 65535 - x := by
  apply Nat.eq_of_testBit_eq
  intro i
  have h1 : 65535 - x = 2 ^ 16 - (x + 1) := by omega
  have h2 : (0xFFFF : Nat) = 2 ^ 16 - 1 := by decide
  rw [h1, Nat.testBit_xor, h2, Nat.testBit_two_pow_sub_one,
    Nat.testBit_two_pow_sub_succ (by exact h)]
  by_cases hi : i < 16
  · simp [hi]
  · have hx : x.testBit i = false := by
      apply Nat.testBit_lt_two_pow
      calc x < 2 ^ 16 := h
        _ ≤ 2 ^ i := Nat.pow_le_pow_right (by decide) (by omega)
    simp [hi, hx]

/-- The checksum in closed form: the complement of the folded 32-bit word sum. -/
theorem calculateICMPChecksum_eq (buf : List Byte) :
    calculateICMPChecksum buf
      = some (65535 - foldCarry (wordSum buf % 2 ^ 32) % 65536) := by
  unfold calculateICMPChecksum
  by_cases h : buf.length % 2 = 1
  · have hne : buf.length % 2 ≠ 0 := by omega
    have hl : 0 + 2 * ((buf.length + 1) / 2) = (buf ++ [0]).length := by
      simp only [List.length_append, List.length_singleton]
      omega
    simp only [hne, ne_eq, not_false_eq_true, if_true]
    rw [wordLoop_eq _ _ 0 0 hl (by decide)]
    simp only [List.drop_zero, Nat.zero_add, wordSum_pad buf h,
      complement16 _ (Nat.mod_lt _ (by decide))]
  · have he : buf.length % 2 = 0 := by omega
    have hl : 0 + 2 * (buf.length / 2) = buf.length := by omega
    simp only [he, ne_eq, not_true_eq_false, if_false]
    rw [wordLoop_eq _ _ 0 0 hl (by decide)]
    simp only [List.drop_zero, Nat.zero_add, complement16 _ (Nat.mod_lt _ (by decide))]

/-- Adding the checksum of a sum to that sum, both in wrapping 32-bit arithmetic,
gives a sum that folds to `0xFFFF`. -/
theorem foldCarry_add_checksum (S : Nat) :
    foldCarry ((S + (65535 - foldCarry (S % 2 ^ 32) % 65536)) % 2 ^ 32) = 65535 := by
  have hs : S % 2 ^ 32 < 2 ^ 32 := Nat.mod_lt _ (by decide)
  obtain ⟨f1, f2, f3, f4⟩ := foldCarry_spec (S % 2 ^ 32) hs
  generalize foldCarry (S % 2 ^ 32) = f at f1 f2 f3 f4
  have ht : (S + (65535 - f % 65536)) % 2 ^ 32 = S % 2 ^ 32 + (65535 - f) := by
    omega
  rw [ht]
  have hlt : S % 2 ^ 32 + (65535 - f) < 2 ^ 32 := by omega
  obtain ⟨g1, g2, _, g4⟩ := foldCarry_spec _ hlt
  have hpos : 0 < S % 2 ^ 32 + (65535 - f) := by omega
  have g5 := g4 hpos
  omega

theorem wordSum_set_checksum (b0 b1 x y : Byte) (rest : List Byte) :
    wordSum (((b0 :: b1 :: 0 :: 0 :: rest).set 2 x).set 3 y)
      = wordSum (b0 :: b1 :: 0 :: 0 :: rest) + (x.val * 256 + y.val) := by
  simp only [List.set, wordSum, Fin.val_zero]
  omega

theorem checksum_bytes (c : Nat) (h : c < 65536) :
    (toByte (c >>> 8)).val * 256 + (toByte c).val = c := by
  simp only [toByte, Nat.shiftRight_eq_div_pow]
  omega

theorem calculateICMPChecksum_reinsert (buf : List Byte) (hlen : 4 ≤ buf.length)
    (h2 : buf[2]? = some 0) (h3 : buf[3]? = some 0) :
    ∃ c, calculateICMPChecksum buf = some c ∧
      calculateICMPChecksum ((buf.set 2 (toByte (c >>> 8))).set 3 (toByte c)) = some 0 := by
  refine ⟨_, calculateICMPChecksum_eq buf, ?_⟩
  match buf, hlen, h2, h3 with
  | b0 :: b1 :: b2 :: b3 :: rest, _, h2, h3 =>
    simp only [List.getElem?_cons_succ, List.getElem?_cons_zero, Option.some.injEq] at h2 h3
    subst h2 h3
    rw [calculateICMPChecksum_eq, wordSum_set_checksum, checksum_bytes _ (by omega),
      foldCarry_add_checksum]

/-! ## Lemmas on the packet and on the loop body -/

theorem calculateICMPChecksum_some (buf : List Byte) :
    ∃ c, calculateICMPChecksum buf = some c ∧ c < 65536 := by
  refine ⟨_, calculateICMPChecksum_eq buf, ?_⟩
  omega

theorem wordLoop_padded (buf : List Byte) :
    ∃ sum, wordLoop (if buf.length % 2 ≠ 0 then buf ++ [0] else buf) 0 0 = some sum := by
  by_cases h : buf.length % 2 = 1
  · have hne : buf.length % 2 ≠ 0 := by omega
    have hl : 0 + 2 * ((buf.length + 1) / 2) = (buf ++ [0]).length := by
      simp only [List.length_append, List.length_singleton]
      omega
    simp only [hne, ne_eq, not_false_eq_true, if_true]
    exact ⟨_, wordLoop_eq _ _ 0 0 hl (by decide)⟩
  · have he : buf.length % 2 = 0 := by omega
    have hl : 0 + 2 * (buf.length / 2) = buf.length := by omega
    simp only [he, ne_eq, not_true_eq_false, if_false]
    exact ⟨_, wordLoop_eq _ _ 0 0 hl (by decide)⟩

theorem identifier_eq (pid : Nat) : identifier pid = some (toUint16 pid) := by
  have hand : pid &&& 0xfff = pid % 4096 := Nat.and_pow_two_sub_one_eq_mod pid 12
  rw [identifier, bigEndianUint16_pair, hand]
  simp only [toByte, toUint16, Nat.shiftRight_eq_div_pow, Option.some.injEq, Fin.mk.injEq]
  omega

theorem buildICMP_eq (pid : Nat) (i : Int) :
    buildICMP pid i = some (echoRequest (toUint16 pid) (uint16OfInt i)) := by
  simp only [buildICMP, identifier_eq, echoRequest]

theorem echoRequest_seq (id seq : Uint16) : (echoRequest id seq).SequenceNumber = seq := rfl

theorem putUint16_val (v : Uint16) :
    (putUint16 v).map Fin.val = [v.val / 256, v.val % 256] := by
  have h := v.isLt
  simp only [putUint16, toByte, Nat.shiftRight_eq_div_pow, List.map_cons, List.map_nil,
    List.cons.injEq, and_true]
  omega

theorem binaryWrite_eq (id seq : Uint16) :
    binaryWrite (echoRequest id seq) = requestBytes 0 id seq := by
  simp only [binaryWrite, echoRequest, requestBytes, putUint16, zeroData, List.cons_append,
    List.nil_append, List.cons.injEq, true_and, and_true]
  decide

theorem buildRequest_eq (id seq : Uint16) :
    ∃ c, c < 65536 ∧ calculateICMPChecksum (binaryWrite (echoRequest id seq)) = some c ∧
      buildRequest (echoRequest id seq) = some (requestBytes c id seq) := by
  obtain ⟨c, hc, hlt⟩ := calculateICMPChecksum_some (requestBytes 0 id seq)
  refine ⟨c, hlt, by rw [binaryWrite_eq]; exact hc, ?_⟩
  simp only [buildRequest, binaryWrite_eq, hc]
  simp only [requestBytes, setByte, List.length_cons, List.length_replicate,
    List.set, Nat.reduceAdd, Nat.reduceLT, if_true]

theorem responseBuffer_length (data : List Byte) : (responseBuffer data).length = 1024 := by
  simp only [responseBuffer, List.length_append, List.length_take, List.length_replicate]
  omega

theorem iteration_eq (pid : Nat) (i : Int) (env : IterEnv) :
    ∃ c, c < 65536 ∧
      calculateICMPChecksum (binaryWrite (echoRequest (toUint16 pid) (uint16OfInt i)))
        = some c ∧
      iteration pid i env =
        (if env.setDeadlineOk = false then some ⟨[.setDeadline, .fatal], false⟩
         else if env.writeOk = false then
           some ⟨[.setDeadline,
                  .write (requestBytes c (toUint16 pid) (uint16OfInt i)), .fatal], false⟩
         else
           match env.read with
           | .error =>
             some ⟨[.setDeadline, .write (requestBytes c (toUint16 pid) (uint16OfInt i)),
                    .print (timeoutLine (uint16OfInt i))], true⟩
           | .ok data =>
             match (responseBuffer data)[8]? with
             | none => none
             | some ttl =>
               some ⟨[.setDeadline, .write (requestBytes c (toUint16 pid) (uint16OfInt i)),
                      .replyLine ((readCount data : Int) - 20) (uint16OfInt i).val ttl.val,
                      .sleep], true⟩) := by
  obtain ⟨c, hlt, hc, hreq⟩ := buildRequest_eq (toUint16 pid) (uint16OfInt i)
  refine ⟨c, hlt, hc, ?_⟩
  unfold iteration
  rw [buildICMP_eq]
  simp only [hreq, echoRequest_seq]

theorem requestBytes_length (c : Nat) (id seq : Uint16) :
    (requestBytes c id seq).length = 56 := by
  simp only [requestBytes, List.length_cons, List.length_replicate]

theorem requestBytes_clear (c : Nat) (id seq : Uint16) :
    ((requestBytes c id seq).set 2 0).set 3 0 = requestBytes 0 id seq := by
  simp only [requestBytes, List.set, List.cons.injEq, true_and]
  decide

theorem requestBytes_insert (c : Nat) (id seq : Uint16) :
    ((requestBytes 0 id seq).set 2 (toByte (c >>> 8))).set 3 (toByte c)
      = requestBytes c id seq := by
  simp only [requestBytes, List.set]

theorem requestBytes_valid (c : Nat) (id seq : Uint16)
    (hc : calculateICMPChecksum (requestBytes 0 id seq) = some c) :
    calculateICMPChecksum (requestBytes c id seq) = some 0 := by
  have h2 : (requestBytes 0 id seq)[2]? = some 0 := by
    simp only [requestBytes, List.getElem?_cons_succ, List.getElem?_cons_zero,
      Option.some.injEq]
    decide
  have h3 : (requestBytes 0 id seq)[3]? = some 0 := by
    simp only [requestBytes, List.getElem?_cons_succ, List.getElem?_cons_zero,
      Option.some.injEq]
    decide
  obtain ⟨c', hc', hz⟩ := calculateICMPChecksum_reinsert (requestBytes 0 id seq)
    (by rw [requestBytes_length]; decide) h2 h3
  rw [hc] at hc'
  cases hc'
  rw [requestBytes_insert] at hz
  exact hz

theorem responseBuffer_ttl (data : List Byte) :
    ∃ ttl, (responseBuffer data)[8]? = some ttl := by
  have h : 8 < (responseBuffer data).length := by
    rw [responseBuffer_length]
    decide
  exact ⟨_, List.getElem?_eq_getElem h⟩

/-- An iteration whose deadline and write succeed goes on to the next one. -/
theorem iteration_continues (pid : Nat) (i : Int) (env : IterEnv)
    (hd : env.setDeadlineOk = true) (hw : env.writeOk = true) :
    ∃ r, iteration pid i env = some r ∧ r.continues = true := by
  obtain ⟨c, _, _, hit⟩ := iteration_eq pid i env
  rw [hit]
  simp only [hd, hw, Bool.true_eq_false, if_false]
  cases env.read with
  | error => exact ⟨_, rfl, rfl⟩
  | ok data =>
    obtain ⟨ttl, httl⟩ := responseBuffer_ttl data
    simp only [httl]
    exact ⟨_, rfl, rfl⟩

theorem step_continues (pid : Nat) (s : Session) (env : IterEnv)
    (hrun : s.status = .running) (hd : env.setDeadlineOk = true)
    (hw : env.writeOk = true) :
    (Session.step pid s env).status = .running ∧
      (Session.step pid s env).i = wrapInt (s.i + 1) := by
  obtain ⟨r, hr, hcont⟩ := iteration_continues pid s.i env hd hw
  simp only [Session.step, hrun, hr, hcont, if_true, and_self]

theorem uint16OfInt_wrapInt_succ (x : Int) :
    (uint16OfInt (wrapInt (x + 1))).val = ((uint16OfInt x).val + 1) % 65536 := by
  simp only [uint16OfInt, toUint16, wrapInt]
  omega

theorem writtenRequests_append (l1 l2 : List Event) :
    writtenRequests (l1 ++ l2) = writtenRequests l1 ++ writtenRequests l2 := by
  induction l1 with
  | nil => rfl
  | cons e rest ih =>
    cases e <;> (rw [List.cons_append]; simp only [writtenRequests, ih, List.cons_append])

theorem sequenceField_requestBytes (c : Nat) (id seq : Uint16) :
    sequenceField (requestBytes c id seq) = some seq.val := by
  have h := seq.isLt
  simp only [sequenceField, requestBytes, List.drop_succ_cons, List.drop_zero,
    bigEndianUint16_pair, Option.map_some', Option.some.injEq, toUint16, toByte,
    Nat.shiftRight_eq_div_pow]
  omega

/-- An iteration that reaches the write passes exactly one request to `conn.Write`,
the one built at its loop counter; it goes on when the write succeeds. -/
theorem iteration_written (pid : Nat) (i : Int) (env : IterEnv)
    (hd : env.setDeadlineOk = true) :
    ∃ c r, iteration pid i env = some r ∧
      writtenRequests r.events = [requestBytes c (toUint16 pid) (uint16OfInt i)] ∧
      (env.writeOk = true → r.continues = true) := by
  obtain ⟨c, _, _, hit⟩ := iteration_eq pid i env
  rw [hit]
  simp only [hd, Bool.true_eq_false, if_false]
  by_cases hw : env.writeOk = false
  · simp only [hw, if_true, Bool.false_eq_true, false_implies, and_true]
    exact ⟨c, _, rfl, rfl⟩
  · simp only [hw, if_false]
    cases env.read with
    | error => exact ⟨c, _, rfl, rfl, fun _ => rfl⟩
    | ok data =>
      obtain ⟨ttl, httl⟩ := responseBuffer_ttl data
      simp only [httl]
      exact ⟨c, _, rfl, rfl, fun _ => rfl⟩

theorem step_written (pid : Nat) (s : Session) (env : IterEnv)
    (hrun : s.status = .running) (hd : env.setDeadlineOk = true)
    (hw : env.writeOk = true) :
    (writtenRequests (Session.step pid s env).log).map sequenceField
      = (writtenRequests s.log).map sequenceField ++ [some (uint16OfInt s.i).val] := by
  obtain ⟨c, r, hr, hwr, hcont⟩ := iteration_written pid s.i env hd
  simp only [Session.step, hrun, hr, hcont hw, if_true, writtenRequests_append, hwr,
    List.map_append, List.map_cons, List.map_nil, sequenceField_requestBytes]

theorem run_from (pid : Nat) : ∀ (hist : List IterEnv) (s : Session),
    s.status = .running →
    (∀ e ∈ hist, e.setDeadlineOk = true ∧ e.writeOk = true) →
    (hist.foldl (Session.step pid) s).status = .running ∧
      (uint16OfInt (hist.foldl (Session.step pid) s).i).val
        = ((uint16OfInt s.i).val + hist.length) % 65536 ∧
      (writtenRequests (hist.foldl (Session.step pid) s).log).map sequenceField
        = (writtenRequests s.log).map sequenceField
            ++ (List.range hist.length).map
                (fun j => some (((uint16OfInt s.i).val + j) % 65536))
  | [], s, hrun, _ => by
    refine ⟨hrun, ?_, ?_⟩
    · have h := (uint16OfInt s.i).isLt
      simp only [List.foldl_nil, List.length_nil, Nat.add_zero]
      omega
    · simp only [List.foldl_nil, List.length_nil, List.range_zero, List.map_nil,
        List.append_nil]
  | env :: rest, s, hrun, hok => by
    have he := hok env (List.mem_cons_self _ _)
    have hlt := (uint16OfInt s.i).isLt
    obtain ⟨h1, h2⟩ := step_continues pid s env hrun he.1 he.2
    have h5 := step_written pid s env hrun he.1 he.2
    obtain ⟨h3, h4, h6⟩ := run_from pid rest (Session.step pid s env) h1
      (fun e hmem => hok e (List.mem_cons_of_mem _ hmem))
    refine ⟨h3, ?_, ?_⟩
    · simp only [List.foldl_cons, List.length_cons]
      rw [h4, h2, uint16OfInt_wrapInt_succ]
      omega
    · simp only [List.foldl_cons, List.length_cons]
      rw [h6, h5, h2, uint16OfInt_wrapInt_succ, List.range_succ_eq_map, List.append_assoc]
      congr 1
      simp only [List.singleton_append, List.map_cons, List.map_map, Nat.add_zero,
        Nat.mod_eq_of_lt hlt, List.cons.injEq, true_and]
      apply List.map_congr_left
      intro j _
      simp only [Function.comp_apply, Option.some.injEq]
      omega

theorem responseBuffer_header (hdr req : List Byte) (hlen : hdr.length = 20) :
    (responseBuffer (hdr ++ req))[8]? = hdr[8]? := by
  have h8 : 8 < hdr.length := by omega
  have h8' : 8 < ((hdr ++ req).take 1024).length := by
    simp only [List.length_take, List.length_append]
    omega
  rw [responseBuffer, List.getElem?_append_left h8', List.getElem?_take_of_lt (by decide),
    List.getElem?_append_left h8]

/-- The loop body when the read delivers a 20-byte header followed by the request. -/
theorem iteration_reply (pid : Nat) (i : Int) (hdr : List Byte) (ttl : Byte)
    (hlen : hdr.length = 20) (httl : hdr[8]? = some ttl) :
    ∃ c, calculateICMPChecksum (requestBytes 0 (toUint16 pid) (uint16OfInt i)) = some c ∧
      buildRequest (echoRequest (toUint16 pid) (uint16OfInt i))
        = some (requestBytes c (toUint16 pid) (uint16OfInt i)) ∧
      iteration pid i ⟨true, true, .ok (hdr ++ requestBytes c (toUint16 pid) (uint16OfInt i))⟩
        = some ⟨[.setDeadline, .write (requestBytes c (toUint16 pid) (uint16OfInt i)),
                 .replyLine 56 (uint16OfInt i).val ttl.val, .sleep], true⟩ := by
  obtain ⟨c, _, hc, hreq⟩ := buildRequest_eq (toUint16 pid) (uint16OfInt i)
  obtain ⟨c', _, hc', hit⟩ := iteration_eq pid i
    ⟨true, true, .ok (hdr ++ requestBytes c (toUint16 pid) (uint16OfInt i))⟩
  have hcc : c' = c := Option.some.inj (hc'.symm.trans hc)
  subst hcc
  rw [binaryWrite_eq] at hc
  refine ⟨c', hc, hreq, ?_⟩
  have hcount : ((readCount (hdr ++ requestBytes c' (toUint16 pid) (uint16OfInt i)) : Nat) : Int)
      - 20 = 56 := by
    simp only [readCount, List.length_append, hlen, requestBytes_length]
    decide
  rw [hit]
  simp only [Bool.true_eq_false, if_false, responseBuffer_header _ _ hlen, httl, hcount]

theorem firstRequest_checksum :
    calculateICMPChecksum (requestBytes 0 (toUint16 0) (uint16OfInt 0)) = some 0xF7FF := by
  rw [calculateICMPChecksum_eq]
  have h : wordSum (requestBytes 0 (toUint16 0) (uint16OfInt 0)) % 2 ^ 32 = 2048 := by
    decide
  rw [h, foldCarry_small 2048 (by decide)]

/-! ## The claims on `calculateICMPChecksum` -/

/-- C1: for every buffer of at least four bytes whose bytes 2 and 3 are zero, of any
length, the checksum is defined, and the buffer with the checksum stored big-endian
at offsets 2 and 3 has checksum zero. -/
theorem checksum_self_verification (buf : List Byte) (hlen : 4 ≤ buf.length)
    (h2 : buf[2]? = some 0) (h3 : buf[3]? = some 0) :
    ∃ c, calculateICMPChecksum buf = some c ∧
      calculateICMPChecksum ((buf.set 2 (toByte (c >>> 8))).set 3 (toByte c)) = some 0 :=
  calculateICMPChecksum_reinsert buf hlen h2 h3

/-- Witness of C1 on the eight-byte header of an echo request. -/
theorem checksum_self_verification_witness :
    4 ≤ [(8 : Byte), 0, 0, 0, 0, 0, 0, 0].length ∧
      [(8 : Byte), 0, 0, 0, 0, 0, 0, 0][2]? = some 0 ∧
      [(8 : Byte), 0, 0, 0, 0, 0, 0, 0][3]? = some 0 ∧
      ∃ c, calculateICMPChecksum [8, 0, 0, 0, 0, 0, 0, 0] = some c ∧
        calculateICMPChecksum
          (([8, 0, 0, 0, 0, 0, 0, 0].set 2 (toByte (c >>> 8))).set 3 (toByte c)) = some 0 :=
  ⟨by decide, by decide, by decide,
    checksum_self_verification [8, 0, 0, 0, 0, 0, 0, 0] (by decide) (by decide) (by decide)⟩

/-- C4: a buffer of odd length has the checksum of the same buffer followed by one
zero byte. -/
theorem checksum_odd_padding (buf : List Byte) (hodd : buf.length % 2 = 1) :
    ∃ c, calculateICMPChecksum buf = some c ∧ calculateICMPChecksum (buf ++ [0]) = some c := by
  refine ⟨_, calculateICMPChecksum_eq buf, ?_⟩
  rw [calculateICMPChecksum_eq, wordSum_pad buf hodd]

/-- Witness of C4: the checksum of `[0x01]` is that of `[0x01, 0x00]`. -/
theorem checksum_odd_padding_witness :
    [(1 : Byte)].length % 2 = 1 ∧
      ∃ c, calculateICMPChecksum [1] = some c ∧ calculateICMPChecksum ([1] ++ [0]) = some c :=
  ⟨by decide, checksum_odd_padding [1] (by decide)⟩

/-- C9: on every byte sequence, empty and odd-length ones included, the word loop over
the possibly padded buffer reads no slice out of range, the carry loop terminates (it
is a total function), and the checksum is a value below `2 ^ 16`. -/
theorem checksum_total (buf : List Byte) :
    (∃ sum, wordLoop (if buf.length % 2 ≠ 0 then buf ++ [0] else buf) 0 0 = some sum) ∧
      ∃ c, calculateICMPChecksum buf = some c ∧ c < 65536 :=
  ⟨wordLoop_padded buf, calculateICMPChecksum_some buf⟩

/-- C10: the checksum of `08 00 00 00 00 00 00 00` is `0xF7FF`. -/
theorem checksum_known_vector :
    calculateICMPChecksum [0x08, 0x00, 0x00, 0x00, 0x00, 0x00, 0x00, 0x00] = some 0xF7FF := by
  rw [calculateICMPChecksum_eq]
  have h : wordSum [0x08, 0x00, 0x00, 0x00, 0x00, 0x00, 0x00, 0x00] % 2 ^ 32 = 2048 := by
    decide
  rw [h, foldCarry_small 2048 (by decide)]

/-! ## The claims on the packet -/

/-- C3: for every identifier and sequence number the serialised message is 56 bytes,
namely `8, 0, 0, 0`, the high and low byte of the identifier, the high and low byte of
the sequence number and 48 zero bytes; the struct built in an iteration has this form. -/
theorem wire_layout (id seq : Uint16) :
    (binaryWrite (echoRequest id seq)).length = 56 ∧
      (binaryWrite (echoRequest id seq)).map Fin.val
        = [8, 0, 0, 0, id.val / 256, id.val % 256, seq.val / 256, seq.val % 256]
            ++ List.replicate 48 0 ∧
      ∀ (pid : Nat) (i : Int),
        buildICMP pid i = some (echoRequest (toUint16 pid) (uint16OfInt i)) := by
  have hid := id.isLt
  have hseq := seq.isLt
  refine ⟨?_, ?_, fun pid i => buildICMP_eq pid i⟩
  · rw [binaryWrite_eq, requestBytes_length]
  · rw [binaryWrite_eq]
    simp only [requestBytes, toByte, Nat.shiftRight_eq_div_pow, List.map_cons,
      List.map_replicate, List.cons_append, List.nil_append, Fin.val_zero, List.cons.injEq,
      and_true]
    exact ⟨by decide, trivial, trivial, trivial, by omega, trivial, by omega⟩

/-- C8: the identifier computed from a process id is its low 16 bits, in every
iteration of the session. -/
theorem identifier_low16 (pid : Nat) :
    (∃ id, identifier pid = some id ∧ id.val = pid % 65536) ∧
      ∀ i : Int, ∃ icmp, buildICMP pid i = some icmp ∧ icmp.Identifier.val = pid % 65536 :=
  ⟨⟨_, identifier_eq pid, rfl⟩, fun i => ⟨_, buildICMP_eq pid i, rfl⟩⟩

/-- C2: in an iteration that reaches the write, exactly one request is written; it is
56 bytes long, its bytes 2 and 3 are the high and low byte of the checksum of the same
bytes with offsets 2 and 3 zero, and its own checksum is zero. -/
theorem request_checksum_valid (pid : Nat) (i : Int) (env : IterEnv)
    (hd : env.setDeadlineOk = true) :
    ∃ r req c, iteration pid i env = some r ∧
      Event.write req ∈ r.events ∧ (∀ q, Event.write q ∈ r.events → q = req) ∧
      req.length = 56 ∧
      calculateICMPChecksum ((req.set 2 0).set 3 0) = some c ∧
      (req.map Fin.val)[2]? = some (c / 256) ∧ (req.map Fin.val)[3]? = some (c % 256) ∧
      calculateICMPChecksum req = some 0 := by
  obtain ⟨c, hlt, hc, hit⟩ := iteration_eq pid i env
  rw [binaryWrite_eq] at hc
  have hbytes : ((requestBytes c (toUint16 pid) (uint16OfInt i)).map Fin.val)[2]? = some (c / 256)
      ∧ ((requestBytes c (toUint16 pid) (uint16OfInt i)).map Fin.val)[3]? = some (c % 256) := by
    simp only [requestBytes, toByte, Nat.shiftRight_eq_div_pow, List.map_cons,
      List.getElem?_cons_succ, List.getElem?_cons_zero, Option.some.injEq]
    exact ⟨by omega, trivial⟩
  have hrest : (requestBytes c (toUint16 pid) (uint16OfInt i)).length = 56 ∧
      calculateICMPChecksum
        (((requestBytes c (toUint16 pid) (uint16OfInt i)).set 2 0).set 3 0) = some c ∧
      ((requestBytes c (toUint16 pid) (uint16OfInt i)).map Fin.val)[2]? = some (c / 256) ∧
      ((requestBytes c (toUint16 pid) (uint16OfInt i)).map Fin.val)[3]? = some (c % 256) ∧
      calculateICMPChecksum (requestBytes c (toUint16 pid) (uint16OfInt i)) = some 0 :=
    ⟨requestBytes_length _ _ _, by rw [requestBytes_clear]; exact hc, hbytes.1, hbytes.2,
      requestBytes_valid _ _ _ hc⟩
  rw [hit]
  simp only [hd, Bool.true_eq_false, if_false]
  by_cases hw : env.writeOk = false
  · simp only [hw, if_true]
    refine ⟨_, _, c, rfl, ?_, ?_, hrest⟩
    · simp only [List.mem_cons, Event.write.injEq, true_or, or_true]
    · intro q hq
      simpa using hq
  · simp only [hw, if_false]
    cases env.read with
    | error =>
      refine ⟨_, _, c, rfl, ?_, ?_, hrest⟩
      · simp only [List.mem_cons, Event.write.injEq, true_or, or_true]
      · intro q hq
        simpa using hq
    | ok data =>
      obtain ⟨ttl, httl⟩ := responseBuffer_ttl data
      simp only [httl]
      refine ⟨_, _, c, rfl, ?_, ?_, hrest⟩
      · simp only [List.mem_cons, Event.write.injEq, true_or, or_true]
      · intro q hq
        simpa using hq

/-- Witness of C2: process 4242, first iteration, a read that fails. -/
theorem request_checksum_valid_witness :
    (⟨true, true, .error⟩ : IterEnv).setDeadlineOk = true ∧
      ∃ r req c, iteration 4242 0 ⟨true, true, .error⟩ = some r ∧
        Event.write req ∈ r.events ∧ (∀ q, Event.write q ∈ r.events → q = req) ∧
        req.length = 56 ∧
        calculateICMPChecksum ((req.set 2 0).set 3 0) = some c ∧
        (req.map Fin.val)[2]? = some (c / 256) ∧ (req.map Fin.val)[3]? = some (c % 256) ∧
        calculateICMPChecksum req = some 0 :=
  ⟨rfl, request_checksum_valid 4242 0 ⟨true, true, .error⟩ rfl⟩

/-! ## The claims on the session loop -/

/-- C5: after any history of `k` iterations that each ended in a reply or a read error,
the session is still running; the requests it has written carry, at offsets 6 and 7, the
sequence numbers `0 mod 65536, ..., (k - 1) mod 65536` in this order; the packet it
builds next has sequence number `k mod 65536`, and the next iteration, when it reaches
the write, writes exactly one request, whose sequence-number field is `k mod 65536`. -/
theorem sequence_numbering (pid : Nat) (hist : List IterEnv)
    (hok : ∀ e ∈ hist, e.setDeadlineOk = true ∧ e.writeOk = true) :
    (Session.run pid hist).status = .running ∧
      (writtenRequests (Session.run pid hist).log).map sequenceField
        = (List.range hist.length).map (fun j => some (j % 65536)) ∧
      (∃ icmp, buildICMP pid (Session.run pid hist).i = some icmp ∧
        icmp.SequenceNumber.val = hist.length % 65536) ∧
      ∀ env : IterEnv, env.setDeadlineOk = true →
        ∃ r request, iteration pid (Session.run pid hist).i env = some r ∧
          writtenRequests r.events = [request] ∧
          sequenceField request = some (hist.length % 65536) := by
  obtain ⟨h1, h2, h3⟩ := run_from pid hist Session.start rfl hok
  have h0 : (uint16OfInt Session.start.i).val = 0 := by decide
  rw [h0, Nat.zero_add] at h2
  refine ⟨h1, ?_, ⟨_, buildICMP_eq pid _, ?_⟩, ?_⟩
  · rw [Session.run, h3, h0]
    simp only [Session.start, writtenRequests, List.map_nil, List.nil_append, Nat.zero_add]
  · rw [echoRequest_seq, Session.run, h2]
  · intro env hd
    obtain ⟨c, r, hr, hwr, _⟩ := iteration_written pid (Session.run pid hist).i env hd
    refine ⟨r, _, hr, hwr, ?_⟩
    rw [sequenceField_requestBytes, Session.run, h2]

/-- Witness of C5: a read error followed by a reply. -/
theorem sequence_numbering_witness :
    (∀ e ∈ [(⟨true, true, .error⟩ : IterEnv), ⟨true, true, .ok []⟩],
        e.setDeadlineOk = true ∧ e.writeOk = true) ∧
      (Session.run 7 [⟨true, true, .error⟩, ⟨true, true, .ok []⟩]).status = .running ∧
      (writtenRequests (Session.run 7 [⟨true, true, .error⟩, ⟨true, true, .ok []⟩]).log).map
          sequenceField
        = (List.range [(⟨true, true, .error⟩ : IterEnv), ⟨true, true, .ok []⟩].length).map
            (fun j => some (j % 65536)) ∧
      (∃ icmp, buildICMP 7 (Session.run 7 [⟨true, true, .error⟩, ⟨true, true, .ok []⟩]).i
          = some icmp ∧
        icmp.SequenceNumber.val
          = [(⟨true, true, .error⟩ : IterEnv), ⟨true, true, .ok []⟩].length % 65536) ∧
      ∀ env : IterEnv, env.setDeadlineOk = true →
        ∃ r request,
          iteration 7 (Session.run 7 [⟨true, true, .error⟩, ⟨true, true, .ok []⟩]).i env
            = some r ∧
          writtenRequests r.events = [request] ∧
          sequenceField request
            = some ([(⟨true, true, .error⟩ : IterEnv), ⟨true, true, .ok []⟩].length % 65536) :=
  ⟨by decide,
    sequence_numbering 7 [⟨true, true, .error⟩, ⟨true, true, .ok []⟩] (by decide)⟩

/-- C6: an iteration with sequence number `s` whose read fails sets the deadline,
writes the request and prints the one line `Request timeout for icmp_seq s`; it prints
no reply line, does not sleep and does not exit; the session goes on with the next
counter, whose sequence number is `(s + 1) mod 65536`. -/
theorem timeout_isolation (pid : Nat) (st : Session) (env : IterEnv)
    (hrun : st.status = .running) (hd : env.setDeadlineOk = true)
    (hw : env.writeOk = true) (hr : env.read = .error) :
    ∃ icmp req next, buildICMP pid st.i = some icmp ∧
      iteration pid st.i env = some
        ⟨[.setDeadline, .write req,
          .print ("Request timeout for icmp_seq " ++ toString icmp.SequenceNumber.val ++ "\n")],
         true⟩ ∧
      Session.step pid st env =
        ⟨wrapInt (st.i + 1),
         st.log ++ [.setDeadline, .write req,
          .print ("Request timeout for icmp_seq " ++ toString icmp.SequenceNumber.val ++ "\n")],
         .running⟩ ∧
      buildICMP pid (wrapInt (st.i + 1)) = some next ∧
      next.SequenceNumber.val = (icmp.SequenceNumber.val + 1) % 65536 := by
  obtain ⟨c, _, _, hit⟩ := iteration_eq pid st.i env
  simp only [hd, hw, hr, Bool.true_eq_false, if_false] at hit
  refine ⟨_, _, _, buildICMP_eq pid st.i, hit, ?_, buildICMP_eq pid _, ?_⟩
  · simp only [Session.step, hrun, hit, if_true]
    rfl
  · rw [echoRequest_seq, echoRequest_seq, uint16OfInt_wrapInt_succ]

/-- Witness of C6: the first iteration of process 7 with a failing read. -/
theorem timeout_isolation_witness :
    Session.start.status = .running ∧
      (⟨true, true, .error⟩ : IterEnv).setDeadlineOk = true ∧
      (⟨true, true, .error⟩ : IterEnv).writeOk = true ∧
      (⟨true, true, .error⟩ : IterEnv).read = .error ∧
      ∃ icmp req next, buildICMP 7 Session.start.i = some icmp ∧
        iteration 7 Session.start.i ⟨true, true, .error⟩ = some
          ⟨[.setDeadline, .write req,
            .print ("Request timeout for icmp_seq " ++ toString icmp.SequenceNumber.val
              ++ "\n")],
           true⟩ ∧
        Session.step 7 Session.start ⟨true, true, .error⟩ =
          ⟨wrapInt (Session.start.i + 1),
           Session.start.log ++ [.setDeadline, .write req,
            .print ("Request timeout for icmp_seq " ++ toString icmp.SequenceNumber.val
              ++ "\n")],
           .running⟩ ∧
        buildICMP 7 (wrapInt (Session.start.i + 1)) = some next ∧
        next.SequenceNumber.val = (icmp.SequenceNumber.val + 1) % 65536 :=
  ⟨rfl, rfl, rfl, rfl, timeout_isolation 7 Session.start ⟨true, true, .error⟩ rfl rfl rfl rfl⟩

/-- C7, as the code has it: in the first iteration a reply made of a 20-byte header
with byte 8 equal to 64 followed by the 56 request bytes is 76 bytes long, and the
reply line reports 56 bytes (76 - 20), `icmp_seq=0` and `ttl=64`; then the loop
sleeps and goes on. -/
theorem reply_line_first_iteration (pid : Nat) (hdr : List Byte)
    (hlen : hdr.length = 20) (httl : hdr[8]? = some 64) :
    ∃ icmp req, buildICMP pid 0 = some icmp ∧ buildRequest icmp = some req ∧
      req.length = 56 ∧
      iteration pid 0 ⟨true, true, .ok (hdr ++ req)⟩
        = some ⟨[.setDeadline, .write req, .replyLine 56 0 64, .sleep], true⟩ := by
  obtain ⟨c, _, hreq, hit⟩ := iteration_reply pid 0 hdr 64 hlen httl
  exact ⟨_, _, buildICMP_eq pid 0, hreq, requestBytes_length _ _ _, hit⟩

/-- Witness of the amended C7: process 0 and a header that is zero except for its
byte 8. -/
theorem reply_line_first_iteration_witness :
    (List.replicate 8 (0 : Byte) ++ [64] ++ List.replicate 11 0).length = 20 ∧
      (List.replicate 8 (0 : Byte) ++ [64] ++ List.replicate 11 0)[8]? = some 64 ∧
      ∃ icmp req, buildICMP 0 0 = some icmp ∧ buildRequest icmp = some req ∧
        req.length = 56 ∧
        iteration 0 0
            ⟨true, true, .ok (List.replicate 8 0 ++ [64] ++ List.replicate 11 0 ++ req)⟩
          = some ⟨[.setDeadline, .write req, .replyLine 56 0 64, .sleep], true⟩ :=
  ⟨by decide, by decide,
    reply_line_first_iteration 0 (List.replicate 8 0 ++ [64] ++ List.replicate 11 0)
      (by decide) (by decide)⟩

/-- C7 as stated fails: for process 0 and the header `00 00 00 00 00 00 00 00 40 00 ...`
followed by the request `08 00 F7 FF 00 ...` of the first iteration, the reply line
reports 56 bytes, and no reply line with a byte count of 36 is printed. -/
theorem reply_line_byte_count_counterexample :
    ∃ icmp req, buildICMP 0 0 = some icmp ∧ buildRequest icmp = some req ∧
      req = 8 :: 0 :: 0xF7 :: 0xFF :: List.replicate 52 0 ∧
      iteration 0 0 ⟨true, true, .ok (List.replicate 8 0 ++ [64] ++ List.replicate 11 0 ++ req)⟩
        = some ⟨[.setDeadline, .write req, .replyLine 56 0 64, .sleep], true⟩ ∧
      ¬ ∃ r, iteration 0 0
            ⟨true, true, .ok (List.replicate 8 0 ++ [64] ++ List.replicate 11 0 ++ req)⟩ = some r ∧
          ∃ seq ttl, Event.replyLine 36 seq ttl ∈ r.events := by
  obtain ⟨c, hc, hreq, hit⟩ := iteration_reply 0 0
    (List.replicate 8 0 ++ [64] ++ List.replicate 11 0) 64 (by decide) (by decide)
  have hcc : c = 0xF7FF := Option.some.inj (hc.symm.trans firstRequest_checksum)
  subst hcc
  refine ⟨_, _, buildICMP_eq 0 0, hreq, by decide, hit, ?_⟩
  rintro ⟨r, hr, seq, ttl, hmem⟩
  rw [hit] at hr
  cases hr
  simp at hmem

end Ping
